import Mathlib

/-!
# Verification of the Obsidian filesystem MCP server (`fs_server.py`)

A shallow embedding of the vault-relative path resolution, text extraction
and operation handlers of `fs_server.py`, together with theorems settling
the frozen claims about them.

Modelling conventions:

* A filesystem is an association list from absolute paths (lists of path
  components, rooted at `/`) to entries (regular files carrying their text
  content and a decodability flag, or directories).  There are no symlinks,
  so `Path.resolve()` is the purely lexical `.`/`..` normalisation.
* Python exceptions that a handler lets escape are modelled as the
  `Out.raised` constructor; `return "Error: ..."` sites are `Out.err`;
  ordinary returns are `Out.success` carrying the structured payload that
  the source serialises (`json.dumps` / markdown rendering is kept only
  where a claim depends on the rendered text).
* The optional `python-frontmatter` dependency is modelled as absent
  (the `except ImportError: frontmatter = None` configuration in the
  source), under which only the regex paths of `_extract_tags` run.
* Strings are treated at the level of Unicode code points, with the
  ASCII fragments of Python's `\s`, `str.lower`, `str.strip` semantics;
  file contents are assumed to use `\n` newlines (the code never writes
  anything else).
-/

deriving instance DecidableEq for Except

namespace ObsidianFS

/-! ## Python character classes (ASCII fragment) -/

/-- Python regex `\s` / `str.strip()` whitespace, ASCII fragment. -/
def isPySpace (c : Char) : Bool :=
  c == ' ' || c == '\t' || c == '\n' || c == '\r' || c == '\x0b' || c == '\x0c'

/-- The character class of `TAG_PATTERN`: ASCII letters, digits,
underscore, hyphen, slash. -/
def isTagChar (c : Char) : Bool :=
  c.isAlpha || c.isDigit || c == '_' || c == '-' || c == '/'

/-- Python `str.lower` on the ASCII fragment (`Char.toLower` is ASCII-only). -/
def pyLower (s : String) : String := ⟨s.data.map Char.toLower⟩

/-- Python `<` on single characters: code-point order. -/
def charLtB (a b : Char) : Bool := decide (a.toNat < b.toNat)

/-- Python `<` on strings: lexicographic code-point order. -/
def strLtB : List Char → List Char → Bool
  | [], [] => false
  | [], _ :: _ => true
  | _ :: _, [] => false
  | a :: as, b :: bs => charLtB a b || (a == b && strLtB as bs)

/-- Python `x in s` (contiguous substring test) on character lists. -/
def infixList (n : List Char) : List Char → Bool
  | [] => n.isPrefixOf ([] : List Char)
  | c :: rest => n.isPrefixOf (c :: rest) || infixList n rest

/-- Python `s.find(n)` restricted to the found case (`none` = not found). -/
def findSub (n : List Char) : List Char → Option Nat
  | [] => if n.isPrefixOf ([] : List Char) then some 0 else none
  | c :: rest =>
    if n.isPrefixOf (c :: rest) then some 0
    else (findSub n rest).map (· + 1)

/-- Python `str.strip()` (ASCII whitespace fragment). -/
def pyStrip (s : String) : String :=
  ⟨((s.data.dropWhile isPySpace).reverse.dropWhile isPySpace).reverse⟩

/-- `len(s.encode("utf-8"))`: the UTF-8 byte length of a string. -/
def utf8Len (s : String) : Nat := s.utf8ByteSize

/-- Number of whitespace-separated tokens, i.e. `len(s.split())`. -/
def countWords (inWord : Bool) : List Char → Nat
  | [] => 0
  | c :: rest =>
    if isPySpace c then countWords false rest
    else (if inWord then 0 else 1) + countWords true rest

/-- `len(content.split())` from `obsidian_fs_read`. -/
def pyWordCount (s : String) : Nat := countWords false s.data

/-! ## Line splitting

`str.splitlines()` and `"\n".join(...)`, restricted to `\n` newlines. -/

/-- Split a character list at every `'\n'`; always returns at least one
(possibly empty) segment, mirroring the segments regex `^...$` sees in
`re.MULTILINE` mode. -/
def splitNl : List Char → List (List Char)
  | [] => [[]]
  | c :: rest =>
    if c = '\n' then [] :: splitNl rest
    else
      match splitNl rest with
      | [] => [[c]]
      | l :: ls => (c :: l) :: ls

/-- Python `str.splitlines()` for `\n`-newline strings: like `splitNl` but a
final newline terminates the last line instead of opening an empty one. -/
def pyLines (cs : List Char) : List (List Char) :=
  if (splitNl cs).getLast? = some [] then (splitNl cs).dropLast else splitNl cs

/-- Python `"\n".join(lines)`. -/
def joinNl : List (List Char) → List Char
  | [] => []
  | [l] => l
  | l :: ls => l ++ '\n' :: joinNl ls

/-! ## Paths

Absolute paths are lists of components below the filesystem root. -/

/-- An absolute filesystem path, as the list of its components. -/
abbrev AbsPath := List String

/-- Split a raw path string at `/`. -/
def splitSlash : List Char → List (List Char)
  | [] => [[]]
  | c :: rest =>
    if c = '/' then [] :: splitSlash rest
    else
      match splitSlash rest with
      | [] => [[c]]
      | l :: ls => (c :: l) :: ls

/-- `PurePosixPath` parsing: split at `/`, drop empty and `.` components
(`..` is kept and handled by resolution). -/
def pathComponents (s : String) : List String :=
  ((splitSlash s.data).map (fun l => (⟨l⟩ : String))).filter
    (fun c => c ≠ "" && c ≠ ".")

/-- `vault / relative`: `pathlib` discards the left operand when the right
operand is absolute. -/
def joinRel (vault : AbsPath) (rel : String) : List String :=
  if rel.data.head? = some '/' then pathComponents rel
  else vault ++ pathComponents rel

/-- Lexical `Path.resolve()` (no symlinks): process `..` by popping, staying
at the root when already there. -/
def resolveComps (acc : AbsPath) : List String → AbsPath
  | [] => acc
  | c :: rest =>
    if c = ".." then resolveComps acc.dropLast rest
    else resolveComps (acc ++ [c]) rest

/-- `(vault / relative).resolve()`. -/
def resolvePath (vault : AbsPath) (rel : String) : AbsPath :=
  resolveComps [] (joinRel vault rel)

/-- The `ValueError` message raised by `_safe_resolve`. -/
def traversalMsg (rel : String) : String :=
  "Path traversal detected: " ++ rel

/-- `_safe_resolve`: resolve `vault / relative` and require the result to be
the vault or a descendant of it (`Path.is_relative_to`); otherwise raise
`ValueError` (modelled as `Except.error`). -/
def safeResolve (vault : AbsPath) (rel : String) : Except String AbsPath :=
  if vault.isPrefixOf (resolvePath vault rel) then Except.ok (resolvePath vault rel)
  else Except.error (traversalMsg rel)

/-- `PurePath.suffix` of a file name: the part from the last dot, unless the
dot is the first or last character. -/
def pySuffix (name : String) : String :=
  let rev := name.data.reverse
  let pre := rev.takeWhile (fun c => c ≠ '.')
  if pre.length = rev.length then ""          -- no dot at all
  else if pre.length = 0 then ""              -- trailing dot
  else if pre.length + 1 = rev.length then "" -- leading dot only
  else ⟨('.' :: pre).reverse⟩

/-- `path.with_suffix(".md")` on the last component (as the handlers use it:
only applied when `pySuffix` is empty, so it appends). -/
def withSuffixMd (p : AbsPath) : AbsPath :=
  match p.getLast? with
  | none => p
  | some last => p.dropLast ++ [last ++ ".md"]

/-- `if not note_path.suffix: note_path = note_path.with_suffix(".md")`. -/
def normalizeExt (p : AbsPath) : AbsPath :=
  match p.getLast? with
  | none => p
  | some last => if pySuffix last = "" then withSuffixMd p else p

/-- `str(p)` for an absolute path. -/
def joinComponents : List String → String
  | [] => ""
  | [c] => c
  | c :: cs => c ++ "/" ++ joinComponents cs

/-- Sort key used by `sorted(notes)`: `PosixPath` ordering is ordering of the
full path string. -/
def pathKey (p : AbsPath) : String := "/" ++ joinComponents p

/-- `str(note_path.relative_to(vault))`. -/
def relStr (vault : AbsPath) (p : AbsPath) : String :=
  joinComponents (p.drop vault.length)

/-- `_is_hidden`: some component starts with a dot. -/
def isHidden (parts : List String) : Bool :=
  parts.any (fun c => c.data.head? = some '.')

/-! ## The filesystem model -/

/-- A directory entry: a regular file with its text content (and whether
`read_text(encoding="utf-8")` succeeds on it), or a directory. -/
inductive Entry where
  | file (content : String) (decodable : Bool)
  | dir
deriving DecidableEq

/-- A filesystem: an association list from absolute paths to entries.
The vault root itself is implicitly an existing directory. -/
structure FS where
  entries : List (AbsPath × Entry)
deriving DecidableEq

def FS.lookup (fs : FS) (p : AbsPath) : Option Entry :=
  (fs.entries.find? (fun e => e.1 = p)).map (·.2)

/-- `Path.exists()`. -/
def FS.existsPath (fs : FS) (p : AbsPath) : Bool :=
  (fs.lookup p).isSome

/-- `Path.is_file()`. -/
def FS.isFile (fs : FS) (p : AbsPath) : Bool :=
  match fs.lookup p with
  | some (.file _ _) => true
  | _ => false

/-- `Path.is_dir()` for paths other than the vault root. -/
def FS.isDirB (fs : FS) (p : AbsPath) : Bool :=
  match fs.lookup p with
  | some .dir => true
  | _ => false

/-- `read_text(encoding="utf-8")`: fails (with `UnicodeDecodeError`/`OSError`)
on non-decodable files and on non-files. -/
def FS.readText (fs : FS) (p : AbsPath) : Except String String :=
  match fs.lookup p with
  | some (.file c true) => Except.ok c
  | some (.file _ false) => Except.error "UnicodeDecodeError"
  | _ => Except.error "OSError"

/-- `write_text`: (re)bind `p` to a decodable file with content `c`. -/
def FS.writeText (fs : FS) (p : AbsPath) (c : String) : FS :=
  ⟨(p, .file c true) :: fs.entries.filter (fun e => e.1 ≠ p)⟩

/-- Create a single directory if nothing exists at `p` yet. -/
def FS.addDir (fs : FS) (p : AbsPath) : FS :=
  if fs.existsPath p then fs else ⟨fs.entries ++ [(p, .dir)]⟩

/-- `path.mkdir(parents=True, exist_ok=True)`: create every missing
ancestor, then the directory itself. -/
def FS.mkdirParents (fs : FS) (p : AbsPath) : FS :=
  (p.inits).foldl FS.addDir fs

/-! ## Text extractors

The regex engines of `fs_server.py`, specialised to the concrete patterns.
The scanners use an explicit fuel argument (initialised to the input
length, which every step strictly decreases below) so that they stay
structurally recursive and kernel-evaluable. -/

/-- Index of the first occurrence of three consecutive backticks. -/
def findFence : List Char → Option Nat
  | '`' :: '`' :: '`' :: _ => some 0
  | _ :: rest => (findFence rest).map (· + 1)
  | [] => none

/-- One pass of `re.sub` with the fenced-block pattern (triple backtick,
non-greedy interior spanning newlines, triple backtick): repeatedly drop
from an opening fence through the earliest closing fence. -/
def stripFencedAux : Nat → List Char → List Char
  | 0, s => s
  | fuel + 1, s =>
    match findFence s with
    | none => s
    | some i =>
      let after := s.drop (i + 3)
      match findFence after with
      | none => s
      | some j => s.take i ++ stripFencedAux fuel (after.drop (j + 3))

/-- One pass of `re.sub` with the inline-code pattern (backtick, one or more
non-backticks, backtick). -/
def stripInlineAux : Nat → List Char → List Char
  | 0, s => s
  | _ + 1, [] => []
  | fuel + 1, c :: rest =>
    if c = '`' then
      let run := rest.takeWhile (fun d => d ≠ '`')
      if run.length ≠ 0 && (rest.drop run.length).head? = some '`' then
        stripInlineAux fuel (rest.drop (run.length + 1))
      else c :: stripInlineAux fuel rest
    else c :: stripInlineAux fuel rest

/-- `_strip_code_blocks`: remove fenced blocks first, then inline spans. -/
def stripCodeBlocks (content : String) : String :=
  let fenced := stripFencedAux content.data.length content.data
  ⟨stripInlineAux fenced.length fenced⟩

/-- `TAG_PATTERN.finditer`: at each `#` preceded by a whitespace character
(`prev` is the character before the scan position; `none` at the start of
the string, where the lookbehind fails), capture a maximal nonempty run of
tag characters and continue after it. -/
def tagScanAux : Nat → Option Char → List Char → List String
  | 0, _, _ => []
  | _ + 1, _, [] => []
  | fuel + 1, prev, c :: rest =>
    if c = '#' && (match prev with | some p => isPySpace p | none => false) then
      let run := rest.takeWhile isTagChar
      if run.length ≠ 0 then
        (⟨run⟩ : String) :: tagScanAux fuel run.getLast? (rest.drop run.length)
      else tagScanAux fuel (some '#') rest
    else tagScanAux fuel (some c) rest

/-- All captures of `TAG_PATTERN` over a string. -/
def tagFinds (s : String) : List String := tagScanAux s.data.length none s.data

/-- Drop characters satisfying `p` from both ends (Python `str.strip(chars)`). -/
def stripChars (p : Char → Bool) (l : List Char) : List Char :=
  ((l.dropWhile p).reverse.dropWhile p).reverse

/-- `tag.strip().strip("#").strip("'\"")` from the frontmatter fallback. -/
def cleanTag (l : List Char) : String :=
  ⟨stripChars (fun c => c == '\'' || c == '"')
    (stripChars (fun c => c == '#') (stripChars isPySpace l))⟩

/-- Split at every character satisfying `p`.  `re.split(r"[,\s]+", ...)`
collapses separator runs instead, but the resulting extra empty segments
are all dropped by the `if tag:` filter downstream, so the two agree after
filtering. -/
def splitPred (p : Char → Bool) : List Char → List (List Char)
  | [] => [[]]
  | c :: rest =>
    if p c then [] :: splitPred p rest
    else
      match splitPred p rest with
      | [] => [[c]]
      | l :: ls => (c :: l) :: ls

/-- A separator of `re.split(r"[,\s]+", raw)`. -/
def isSepChar (c : Char) : Bool := c == ',' || isPySpace c

/-- `FRONTMATTER_TAG_PATTERN` applied to one (newline-free) line, returning
the cleaned, nonempty tag tokens of its captured group.  The lazy group
with optional bracket and trailing `\s*$` captures the text after
`tags:` + greedy whitespace + optional `[`, with the longest tail of the
form optional `]` + whitespace removed. -/
def fmLineTags (line : List Char) : List String :=
  if "tags:".data.isPrefixOf line then
    let rest := (line.drop 5).dropWhile isPySpace
    let rest := if rest.head? = some '[' then rest.drop 1 else rest
    let core := (rest.reverse.dropWhile isPySpace).reverse
    let raw : List Char := if core.getLast? = some ']' then core.dropLast else core
    ((splitPred isSepChar raw).map cleanTag).filter (fun t => t ≠ "")
  else []

/-- All tags contributed by `FRONTMATTER_TAG_PATTERN.finditer` over the
(unstripped) content: the pattern is anchored `^...$` in `re.MULTILINE`
mode and its `.` cannot cross newlines, so it applies line by line. -/
def fmTags (content : String) : List String :=
  (splitNl content.data).foldr (fun line acc => fmLineTags line ++ acc) []

/-- Insert into a strictly sorted duplicate-free list, keeping it so. -/
def insertTag (x : String) : List String → List String
  | [] => [x]
  | y :: ys =>
    if x = y then y :: ys
    else if strLtB x.data y.data then x :: y :: ys
    else y :: insertTag x ys

/-- `sorted(set(l))`: the strictly ascending enumeration of the elements. -/
def sortDedup (l : List String) : List String := l.foldr insertTag []

/-- `_extract_tags` in the frontmatter-library-absent configuration:
inline tags scanned over the code-stripped text, frontmatter-fallback tags
scanned over the original text, deduplicated and sorted. -/
def extractTags (content : String) : List String :=
  sortDedup (tagFinds (stripCodeBlocks content) ++ fmTags content)

/-- `TASK_PATTERN.match` on a newline-free line: leading whitespace, `-`,
one whitespace, `[`, a single status character, `]`, one or more
whitespace, trailing text. -/
def parseTask (cs : List Char) : Option (List Char × Char × List Char) :=
  match cs.dropWhile isPySpace with
  | d :: w :: ob :: st :: cb :: rest =>
    if d == '-' && ob == '[' && cb == ']' && isPySpace w then
      if (rest.takeWhile isPySpace).length ≠ 0 then
        some (cs.takeWhile isPySpace, st, rest.dropWhile isPySpace)
      else none
    else none
  | _ => none

/-- `f"{indent}- [{new_status}] {text}"` from `obsidian_fs_task_toggle`. -/
def mkTaskLine (ind : List Char) (st : Char) (tx : List Char) : List Char :=
  ind ++ ('-' :: ' ' :: '[' :: st :: ']' :: ' ' :: tx)

/-! ## Note enumeration (`_list_notes`) -/

/-- Whether a file name matches the glob `*.md`. -/
def endsWithMd (s : String) : Bool := ".md".data.isSuffixOf s.data

/-- Insertion into a list sorted by `pathKey`. -/
def insertPath (p : AbsPath) : List AbsPath → List AbsPath
  | [] => [p]
  | q :: qs =>
    if strLtB (pathKey p).data (pathKey q).data then p :: q :: qs
    else q :: insertPath p qs

/-- `sorted(notes)`: `PosixPath` values sort by their path string. -/
def sortPaths (l : List AbsPath) : List AbsPath := l.foldr insertPath []

/-- `base.rglob("*.md")`: every entry strictly below `base` whose final
component matches `*.md`, provided `base` is a directory (a `glob` on a
non-directory silently yields nothing); the vault root itself is always a
directory. -/
def FS.rglobMd (fs : FS) (vault base : AbsPath) : List AbsPath :=
  if base = vault || fs.isDirB base then
    (fs.entries.map (·.1)).filter
      (fun p => base.isPrefixOf p && p ≠ base && endsWithMd (p.getLast?.getD ""))
  else []

/-- The body of `_list_notes` once the scope directory is known. -/
def notesUnder (fs : FS) (vault base : AbsPath) : List AbsPath :=
  sortPaths ((fs.rglobMd vault base).filter (fun p => !isHidden (p.drop vault.length)))

/-- `_list_notes(vault, folder)`: resolve the scope (the vault root for a
falsy `folder`), recursively collect non-hidden `*.md` descendants, sort.
A path-traversal `ValueError` from `_safe_resolve` propagates as `error`. -/
def listNotes (fs : FS) (vault : AbsPath) (folder : Option String) :
    Except String (List AbsPath) :=
  match folder with
  | none => Except.ok (notesUnder fs vault vault)
  | some f =>
    if f = "" then Except.ok (notesUnder fs vault vault)
    else
      match safeResolve vault f with
      | Except.error e => Except.error e
      | Except.ok base => Except.ok (notesUnder fs vault base)

/-! ## Handler inputs and outputs

Inputs model the pydantic request objects after validation (so e.g.
`FsTaskToggleInput.line ≥ 1` is a hypothesis of the theorems that need
it).  `Out` classifies what a handler does: `raised` for a Python
exception escaping the handler, `err` for a `return "Error: ..."` site,
`success` for the ordinary return (carrying the structured payload that
the source renders; response-format rendering is kept only where a claim
inspects the rendered text, and the `json` rendering mode is omitted). -/

inductive Out (α : Type) where
  | raised (msg : String)
  | err (s : String)
  | success (v : α)
deriving DecidableEq

structure SearchNotesInput where
  query : String
  search_type : String := "both"
  folder : Option String := none
  limit : Nat := 20
deriving DecidableEq

structure ReadNoteInput where
  path : String
deriving DecidableEq

structure CreateNoteInput where
  path : String
  content : String := ""
  overwrite : Bool := false
deriving DecidableEq

structure GetTagsInput where
  folder : Option String := none
deriving DecidableEq

structure FsTasksListInput where
  folder : Option String := none
  todo : Bool := false
  done : Bool := false
deriving DecidableEq

structure FsTaskToggleInput where
  path : String
  line : Nat
deriving DecidableEq

/-- `PurePath.stem`: name without its suffix. -/
def pyStem (name : String) : String :=
  if pySuffix name = "" then name
  else ⟨name.data.take (name.data.length - (pySuffix name).data.length)⟩

/-- `stat().st_size`: on-disk byte size (UTF-8 bytes of the content for
files; the value for directories is never inspected by any claim). -/
def FS.sizeBytes (fs : FS) (p : AbsPath) : Nat :=
  match fs.lookup p with
  | some (.file c _) => utf8Len c
  | _ => 0

/-- `_note_metadata` (timestamps and the optional frontmatter mapping are
omitted: the frontmatter library is modelled as absent and no claim
inspects times). -/
structure NoteMeta where
  path : String
  name : String
  folder : String
  size_bytes : Nat
deriving DecidableEq

def noteMetadata (fs : FS) (vault p : AbsPath) : NoteMeta :=
  let rel := p.drop vault.length
  { path := joinComponents rel
    name := pyStem (p.getLast?.getD "")
    folder := joinComponents rel.dropLast
    size_bytes := fs.sizeBytes p }

/-- `"\n".join(lines)` on strings. -/
def joinLines : List String → String
  | [] => ""
  | [x] => x
  | x :: xs => x ++ "\n" ++ joinLines xs

/-! ## Operation handlers -/

/-- The result dict of `obsidian_fs_read` (wikilinks, timestamps and
frontmatter omitted as above). -/
structure ReadResult where
  path : String
  name : String
  folder : String
  size_bytes : Nat
  content : String
  tags : List String
  word_count : Nat
  char_count : Nat
deriving DecidableEq

/-- `obsidian_fs_read`. -/
def obsidian_fs_read (fs : FS) (vault : AbsPath) (params : ReadNoteInput) :
    Out ReadResult :=
  match safeResolve vault params.path with
  | Except.error e => .raised e
  | Except.ok p0 =>
    let p := normalizeExt p0
    if !(fs.isFile p) then
      .err ("Error: Note not found at '" ++ params.path ++ "'.")
    else
      match fs.readText p with
      | Except.error e => .err ("Error: Could not read note: " ++ e)
      | Except.ok content =>
        let m := noteMetadata fs vault p
        .success
          { path := m.path, name := m.name, folder := m.folder
            size_bytes := m.size_bytes, content := content
            tags := extractTags content
            word_count := pyWordCount content
            char_count := content.data.length }

/-- `obsidian_fs_create`; the success payload is the `(path, size_bytes)`
of the response JSON. -/
def obsidian_fs_create (fs : FS) (vault : AbsPath) (params : CreateNoteInput) :
    FS × Out (String × Nat) :=
  match safeResolve vault params.path with
  | Except.error e => (fs, .raised e)
  | Except.ok p0 =>
    let p := normalizeExt p0
    if fs.existsPath p && !params.overwrite then
      (fs, .err ("Error: Note already exists at '" ++ params.path ++
        "'. Set overwrite=true to replace."))
    else
      let fs1 := fs.mkdirParents p.dropLast
      (fs1.writeText p params.content,
        .success (relStr vault p, utf8Len params.content))

/-- `tag_counts[tag] = tag_counts.get(tag, 0) + 1` over a dict in
insertion order. -/
def bumpTag (counts : List (String × Nat)) (t : String) : List (String × Nat) :=
  if counts.any (fun e => e.1 = t) then
    counts.map (fun e => if e.1 = t then (e.1, e.2 + 1) else e)
  else counts ++ [(t, 1)]

/-- Insertion into a list sorted by `key=lambda x: (-x[1], x[0])`. -/
def insertTagCount (x : String × Nat) : List (String × Nat) → List (String × Nat)
  | [] => [x]
  | y :: ys =>
    if Nat.blt y.2 x.2 || (x.2 == y.2 && strLtB x.1.data y.1.data) then x :: y :: ys
    else y :: insertTagCount x ys

/-- `sorted(tag_counts.items(), key=lambda x: (-x[1], x[0]))`. -/
def sortTagCounts (l : List (String × Nat)) : List (String × Nat) :=
  l.foldr insertTagCount []

/-- `obsidian_fs_get_tags` (markdown rendering, the default format). -/
def obsidian_fs_get_tags (fs : FS) (vault : AbsPath) (params : GetTagsInput) :
    Out String :=
  match listNotes fs vault params.folder with
  | Except.error e => .raised e
  | Except.ok notes =>
    let counts := notes.foldl
      (fun acc p =>
        match fs.readText p with
        | Except.error _ => acc
        | Except.ok content => (extractTags content).foldl bumpTag acc)
      []
    let sorted := sortTagCounts counts
    if sorted.isEmpty then .success "No tags found in the vault."
    else
      .success (joinLines
        (("# Tags (" ++ toString sorted.length ++ " found)\n") ::
          sorted.map (fun e => "- #" ++ e.1 ++ " (" ++ toString e.2 ++ " notes)")))

/-- The loop body of `obsidian_fs_tasks_list` over the enumerated lines of
one note (`enumerate(..., start=1)` supplies `i`). -/
def taskEntriesAux (todo done : Bool) (rel : String) :
    Nat → List (List Char) → List String
  | _, [] => []
  | i, l :: ls =>
    let rest := taskEntriesAux todo done rel (i + 1) ls
    match parseTask l with
    | none => rest
    | some (_, st, tx) =>
      let is_done : Bool := st != ' '
      if todo && is_done then rest
      else if done && !is_done then rest
      else
        ("- [" ++ (⟨[st]⟩ : String) ++ "] " ++ (⟨tx⟩ : String) ++ " (" ++
          rel ++ ":" ++ toString i ++ ")") :: rest

/-- `obsidian_fs_tasks_list`. -/
def obsidian_fs_tasks_list (fs : FS) (vault : AbsPath)
    (params : FsTasksListInput) : Out String :=
  match listNotes fs vault params.folder with
  | Except.error e => .raised e
  | Except.ok notes =>
    let tasks := notes.foldl
      (fun acc p =>
        match fs.readText p with
        | Except.error _ => acc
        | Except.ok content =>
          acc ++ taskEntriesAux params.todo params.done (relStr vault p) 1
            (pyLines content.data))
      []
    if tasks.isEmpty then .success "No tasks found."
    else
      .success ("# Tasks (" ++ toString tasks.length ++ " tasks found)\n" ++
        joinLines tasks)

/-- `obsidian_fs_task_toggle`.  The `line` field is 1-indexed and
pydantic-validated to be `≥ 1`; theorems carry that bound. -/
def obsidian_fs_task_toggle (fs : FS) (vault : AbsPath)
    (params : FsTaskToggleInput) : FS × Out String :=
  match safeResolve vault params.path with
  | Except.error e => (fs, .raised e)
  | Except.ok p0 =>
    let p := normalizeExt p0
    if !(fs.isFile p) then
      (fs, .err ("Error: Note not found at '" ++ params.path ++ "'."))
    else
      match fs.readText p with
      | Except.error e => (fs, .err ("Error: Could not read note: " ++ e))
      | Except.ok content =>
        let lines := pyLines content.data
        if params.line > lines.length then
          (fs, .err ("Error: Line " ++ toString params.line ++
            " exceeds file length (" ++ toString lines.length ++ " lines)."))
        else
          let idx := params.line - 1
          match parseTask (lines.getD idx []) with
          | none =>
            (fs, .err ("Error: Line " ++ toString params.line ++ " in " ++
              params.path ++ " is not a task."))
          | some (ind, st, tx) =>
            let ns : Char := if st != ' ' then ' ' else 'x'
            let fs2 := fs.writeText p ⟨joinNl (lines.set idx (mkTaskLine ind ns tx))⟩
            (fs2, .success ("Toggled task at " ++ relStr vault p ++ ":" ++
              toString params.line ++ " to [" ++ (⟨[ns]⟩ : String) ++ "]"))

/-- One search result row (timestamps and frontmatter omitted as above). -/
structure SearchResult where
  path : String
  name : String
  folder : String
  size_bytes : Nat
  match_context : String
deriving DecidableEq

/-- The fixed-width context window around the first content match:
`content[max(0, idx - 50) : min(len, idx + len(query) + 50)]`, newlines
replaced by spaces, stripped. -/
def searchContext (content : List Char) (ql : List Char) (qlen : Nat) : String :=
  match findSub ql (content.map Char.toLower) with
  | none => ""
  | some idx =>
    let stop := min content.length (idx + qlen + 50)
    pyStrip ⟨((content.take stop).drop (idx - 50)).map
      (fun c => if c = '\n' then ' ' else c)⟩

/-- The per-note match decision of `obsidian_fs_search` (lines 344-362 of
the source): filename match short-circuits and leaves the context empty;
only otherwise is the content consulted, with read failures skipping the
note. -/
def searchMatch (search_type : String) (query : String) (stem : String)
    (content : Except String String) : Option String :=
  let ql := (pyLower query).data
  if (search_type = "filename" || search_type = "both") &&
      infixList ql (pyLower stem).data then
    some ""
  else if search_type = "content" || search_type = "both" then
    match content with
    | Except.error _ => none
    | Except.ok c =>
      if infixList ql (pyLower c).data then
        some (searchContext c.data ql query.data.length)
      else none
  else none

/-- The result-collecting loop of `obsidian_fs_search`, with the
`len(results) >= limit` break at the top of each iteration. -/
def searchLoop (fs : FS) (vault : AbsPath) (params : SearchNotesInput) :
    List AbsPath → List SearchResult → List SearchResult
  | [], acc => acc
  | p :: rest, acc =>
    if params.limit ≤ acc.length then acc
    else
      match searchMatch params.search_type params.query
          (pyStem (p.getLast?.getD "")) (fs.readText p) with
      | none => searchLoop fs vault params rest acc
      | some ctx =>
        let m := noteMetadata fs vault p
        searchLoop fs vault params rest
          (acc ++ [⟨m.path, m.name, m.folder, m.size_bytes, ctx⟩])

/-- `obsidian_fs_search` (structured results; both renderings omitted). -/
def obsidian_fs_search (fs : FS) (vault : AbsPath) (params : SearchNotesInput) :
    Out (List SearchResult) :=
  match listNotes fs vault params.folder with
  | Except.error e => .raised e
  | Except.ok notes => .success (searchLoop fs vault params notes [])

/-! ## General lemmas -/

theorem isPrefixOf_append_of_isPrefixOf {p a : List Char} (b : List Char)
    (h : p.isPrefixOf a = true) : p.isPrefixOf (a ++ b) = true := by
  induction p generalizing a with
  | nil => simp [List.isPrefixOf]
  | cons c cs ih =>
    cases a with
    | nil => simp [List.isPrefixOf] at h
    | cons d ds =>
      simp only [List.cons_append, List.isPrefixOf, Bool.and_eq_true] at h ⊢
      exact ⟨h.1, ih h.2⟩

/-- Every `ValueError` out of `_safe_resolve` is the path-traversal one. -/
theorem safeResolve_error {vault : AbsPath} {rel : String} {e : String}
    (h : safeResolve vault rel = Except.error e) : e = traversalMsg rel := by
  unfold safeResolve at h
  split at h
  · exact absurd h (by simp)
  · cases h; rfl

/-- Every `error` out of `_list_notes` is a path-traversal `ValueError`. -/
theorem listNotes_error {fs : FS} {vault : AbsPath} {folder : Option String}
    {e : String} (h : listNotes fs vault folder = Except.error e) :
    ∃ rel, e = traversalMsg rel := by
  unfold listNotes at h
  cases folder with
  | none => cases h
  | some f =>
    by_cases hf : f = ""
    · simp [hf] at h
    · simp only [hf, if_false] at h
      cases hres : safeResolve vault f with
      | error e2 => rw [hres] at h; cases h; exact ⟨f, safeResolve_error hres⟩
      | ok base => rw [hres] at h; cases h

/-! ## C3: path traversal is always rejected -/

/-- C3: for every relative path containing `..` segments whose canonicalized
join with the vault root lies outside the vault root, `_safe_resolve` fails
with the path-traversal `ValueError`.  `safeResolve` takes no filesystem
argument: resolution in the (symlink-free) model is purely lexical, so the
outcome is independent of whether the target exists on disk. -/
theorem safe_resolve_rejects_escape (vault : AbsPath) (rel : String)
    (hdots : ".." ∈ pathComponents rel)
    (hout : vault.isPrefixOf (resolvePath vault rel) = false) :
    safeResolve vault rel = Except.error (traversalMsg rel) := by
  unfold safeResolve
  simp [hout]

/-- Witness for C3 at `vault = /vault`, `rel = ../secrets.md`. -/
theorem safe_resolve_rejects_escape_witness :
    safeResolve ["vault"] "../secrets.md" =
      Except.error (traversalMsg "../secrets.md") :=
  safe_resolve_rejects_escape ["vault"] "../secrets.md" (by decide) (by decide)

/-! ## C10: filename matches never consult the content -/

/-- C10: in a `both`-mode search, a note whose stem contains the query
(case-insensitively) is matched with an empty `match_context`, and the
outcome is the same for every value of `content` — the content is never
consulted, even if the query also occurs in it.  (`searchMatch` is the
per-note match decision used by `searchLoop` / `obsidian_fs_search`.) -/
theorem search_filename_match_skips_content (query stem : String)
    (content : Except String String)
    (hname : infixList (pyLower query).data (pyLower stem).data = true) :
    searchMatch "both" query stem content = some "" := by
  unfold searchMatch
  simp [hname]

/-- Witness for C10: the query matches the stem and also occurs in the
content; the context is still empty. -/
theorem search_filename_match_skips_content_witness :
    searchMatch "both" "note" "MyNote" (Except.ok "this note says note") = some "" :=
  search_filename_match_skips_content "note" "MyNote"
    (Except.ok "this note says note") (by decide)

/-! ## C1: the raise-free handler contract fails on path traversal -/

/-- Counterexample to C1: `obsidian_fs_read` on the request path `../x`
does not return an `Error:`-prefixed string — the `ValueError` raised by
`_safe_resolve` escapes the handler to the transport. -/
theorem read_raises_on_traversal :
    obsidian_fs_read ⟨[]⟩ ["vault"] ⟨"../x"⟩ = Out.raised (traversalMsg "../x") := by
  decide

/-- The amended boundary contract of a handler outcome: a raise carries the
path-traversal `ValueError` message, and every `return`ed failure string
begins with `Error:`. -/
def outContract {α : Type} (o : Out α) : Bool :=
  match o with
  | .raised m => "Path traversal detected: ".data.isPrefixOf m.data
  | .err s => "Error:".data.isPrefixOf s.data
  | .success _ => true

theorem outContract_raised_traversal {α : Type} (rel : String) :
    outContract (Out.raised (traversalMsg rel) : Out α) = true := by
  show "Path traversal detected: ".data.isPrefixOf (traversalMsg rel).data = true
  unfold traversalMsg
  rw [String.data_append]
  exact isPrefixOf_append_of_isPrefixOf _ (by decide)

theorem outContract_err {α : Type} (s : String)
    (h : "Error:".data.isPrefixOf s.data = true) :
    outContract (Out.err s : Out α) = true := h

theorem errPrefix_of_append (lit rest : String)
    (h : "Error:".data.isPrefixOf lit.data = true) :
    "Error:".data.isPrefixOf (lit ++ rest).data = true := by
  rw [String.data_append]
  exact isPrefixOf_append_of_isPrefixOf _ h

theorem contract_read (fs : FS) (vault : AbsPath) (pr : ReadNoteInput) :
    outContract (obsidian_fs_read fs vault pr) = true := by
  unfold obsidian_fs_read
  cases hres : safeResolve vault pr.path with
  | error e =>
    rw [safeResolve_error hres]
    exact outContract_raised_traversal _
  | ok p0 =>
    dsimp only
    split
    · refine outContract_err _ ?_
      repeat apply errPrefix_of_append
      decide
    · split
      · refine outContract_err _ ?_
        repeat apply errPrefix_of_append
        decide
      · rfl

theorem contract_create (fs : FS) (vault : AbsPath) (pc : CreateNoteInput) :
    outContract (obsidian_fs_create fs vault pc).2 = true := by
  unfold obsidian_fs_create
  cases hres : safeResolve vault pc.path with
  | error e =>
    rw [safeResolve_error hres]
    exact outContract_raised_traversal _
  | ok p0 =>
    dsimp only
    split
    · refine outContract_err _ ?_
      repeat apply errPrefix_of_append
      decide
    · rfl

theorem contract_get_tags (fs : FS) (vault : AbsPath) (pg : GetTagsInput) :
    outContract (obsidian_fs_get_tags fs vault pg) = true := by
  unfold obsidian_fs_get_tags
  cases hres : listNotes fs vault pg.folder with
  | error e =>
    obtain ⟨rel, rfl⟩ := listNotes_error hres
    exact outContract_raised_traversal _
  | ok notes =>
    dsimp only
    split <;> rfl

theorem contract_tasks_list (fs : FS) (vault : AbsPath) (pt : FsTasksListInput) :
    outContract (obsidian_fs_tasks_list fs vault pt) = true := by
  unfold obsidian_fs_tasks_list
  cases hres : listNotes fs vault pt.folder with
  | error e =>
    obtain ⟨rel, rfl⟩ := listNotes_error hres
    exact outContract_raised_traversal _
  | ok notes =>
    dsimp only
    split <;> rfl

theorem contract_search (fs : FS) (vault : AbsPath) (ps : SearchNotesInput) :
    outContract (obsidian_fs_search fs vault ps) = true := by
  unfold obsidian_fs_search
  cases hres : listNotes fs vault ps.folder with
  | error e =>
    obtain ⟨rel, rfl⟩ := listNotes_error hres
    exact outContract_raised_traversal _
  | ok notes => rfl

theorem contract_task_toggle (fs : FS) (vault : AbsPath) (px : FsTaskToggleInput) :
    outContract (obsidian_fs_task_toggle fs vault px).2 = true := by
  unfold obsidian_fs_task_toggle
  cases hres : safeResolve vault px.path with
  | error e =>
    rw [safeResolve_error hres]
    exact outContract_raised_traversal _
  | ok p0 =>
    dsimp only
    split
    · refine outContract_err _ ?_
      repeat apply errPrefix_of_append
      decide
    · cases hr : fs.readText (normalizeExt p0) with
      | error e =>
        refine outContract_err _ ?_
        repeat apply errPrefix_of_append
        decide
      | ok content =>
        dsimp only
        split
        · refine outContract_err _ ?_
          repeat apply errPrefix_of_append
          decide
        · split
          · refine outContract_err _ ?_
            repeat apply errPrefix_of_append
            decide
          · rfl

/-- Amended C1: over the modelled handlers (search, read, create, get_tags,
tasks_list, task_toggle), for every filesystem, vault and request: the only
exception a handler lets escape to the transport is the path-traversal
`ValueError` from `_safe_resolve` (besides vault-path misconfiguration,
which is outside the model since the vault is a parameter), and every
handler-returned failure string begins with `Error:`. -/
theorem handlers_error_contract (fs : FS) (vault : AbsPath)
    (ps : SearchNotesInput) (pr : ReadNoteInput) (pc : CreateNoteInput)
    (pg : GetTagsInput) (pt : FsTasksListInput) (px : FsTaskToggleInput) :
    outContract (obsidian_fs_search fs vault ps) = true ∧
    outContract (obsidian_fs_read fs vault pr) = true ∧
    outContract (obsidian_fs_create fs vault pc).2 = true ∧
    outContract (obsidian_fs_get_tags fs vault pg) = true ∧
    outContract (obsidian_fs_tasks_list fs vault pt) = true ∧
    outContract (obsidian_fs_task_toggle fs vault px).2 = true :=
  ⟨contract_search fs vault ps, contract_read fs vault pr,
   contract_create fs vault pc, contract_get_tags fs vault pg,
   contract_tasks_list fs vault pt, contract_task_toggle fs vault px⟩

/-! ## C2: both task filters together exclude everything -/

/-- With `todo = done = true` every parsed task line is filtered out:
a complete task falls to the `todo` filter, an incomplete one to the
`done` filter. -/
theorem taskEntriesAux_both_true (rel : String) (i : Nat) (ls : List (List Char)) :
    taskEntriesAux true true rel i ls = [] := by
  induction ls generalizing i with
  | nil => rfl
  | cons l ls ih =>
    simp only [taskEntriesAux]
    cases hp : parseTask l with
    | none => simp [ih]
    | some v =>
      obtain ⟨ind, st, tx⟩ := v
      by_cases hst : st = ' '
      · simp [hst, ih]
      · simp [hst, ih]

/-- Amended C2: for every filesystem and vault, a vault-wide `tasks_list`
with `todo = done = true` excludes every task and returns the literal
`"No tasks found."` — in contrast with `todo = done = false`, which lists
all tasks (see the counterexample). -/
theorem tasks_list_both_true_empty (fs : FS) (vault : AbsPath) :
    obsidian_fs_tasks_list fs vault ⟨none, true, true⟩ =
      Out.success "No tasks found." := by
  unfold obsidian_fs_tasks_list
  simp only [listNotes]
  have hfold : ∀ (notes : List AbsPath) (acc : List String),
      List.foldl
        (fun acc p =>
          match fs.readText p with
          | Except.error _ => acc
          | Except.ok content =>
            acc ++ taskEntriesAux true true (relStr vault p) 1
              (pyLines content.data))
        acc notes = acc := by
    intro notes
    induction notes with
    | nil => intro acc; rfl
    | cons p ps ih =>
      intro acc
      simp only [List.foldl]
      cases hr : fs.readText p with
      | error e => exact ih acc
      | ok c =>
        dsimp only
        rw [taskEntriesAux_both_true, List.append_nil]
        exact ih acc
  simp [hfold]

/-! ## C2 counterexample fixture -/

def fsTasksBoth : FS := ⟨[(["v", "a.md"], .file "- [ ] t\n- [x] u" true)]⟩

/-- Counterexample to C2: on a vault with one incomplete and one complete
task, `tasks_list` with `todo = done = true` returns no tasks at all,
while `todo = done = false` lists both. -/
theorem tasks_list_both_flags_differs :
    obsidian_fs_tasks_list fsTasksBoth ["v"] ⟨none, true, true⟩ =
      Out.success "No tasks found." ∧
    obsidian_fs_tasks_list fsTasksBoth ["v"] ⟨none, false, false⟩ =
      Out.success "# Tasks (2 tasks found)\n- [ ] t (a.md:1)\n- [x] u (a.md:2)" := by
  decide

/-! ## C4: the scenario of the spec (and of the repository test) -/

def fsTagScenario : FS :=
  ⟨[(["v", "Note1.md"], .file "#tag1 #tag2" true),
    (["v", "Note2.md"], .file "#tag1" true)]⟩

/-- C4 evaluated at its failing input: the vault of the scenario yields
only `tag2` with count 1.  `#tag1` is never extracted because the
lookbehind `(?<=\s)` of `TAG_PATTERN` has no character to inspect at the
very start of the content, so both notes lose their leading `#tag1`;
the repository test `test_get_tags` asserts `#tag1 (2 notes)` and
`#tag2 (1 notes)` for exactly this vault. -/
theorem get_tags_start_of_file_tag_miss :
    obsidian_fs_get_tags fsTagScenario ["v"] ⟨none⟩ =
      Out.success "# Tags (1 found)\n\n- #tag2 (1 notes)" ∧
    extractTags "#tag1 #tag2" = ["tag2"] ∧
    extractTags "#tag1" = [] := by
  decide

/-! ## Order lemmas for the tag comparator -/

theorem char_toNat_inj {a b : Char} (h : a.toNat = b.toNat) : a = b :=
  Char.ext (UInt32.ext h)

theorem charLtB_irrefl (a : Char) : charLtB a a = false := by
  simp [charLtB]

theorem strLtB_irrefl (l : List Char) : strLtB l l = false := by
  induction l with
  | nil => rfl
  | cons a as ih => simp [strLtB, charLtB_irrefl, ih]

theorem strLtB_of_not_lt {x y : List Char} (hne : x ≠ y)
    (h : strLtB x y = false) : strLtB y x = true := by
  induction x generalizing y with
  | nil =>
    cases y with
    | nil => exact absurd rfl hne
    | cons b bs => simp [strLtB] at h
  | cons a as ih =>
    cases y with
    | nil => rfl
    | cons b bs =>
      simp only [strLtB, Bool.or_eq_false_iff] at h
      obtain ⟨hab, hrest⟩ := h
      by_cases heq : a = b
      · subst heq
        have hbs : strLtB as bs = false := by simpa using hrest
        have hne2 : as ≠ bs := fun hc => hne (by rw [hc])
        simp [strLtB, ih hne2 hbs]
      · have hnat : b.toNat < a.toNat := by
          have h1 : ¬a.toNat < b.toNat := by
            simpa [charLtB] using hab
          have h2 : a.toNat ≠ b.toNat := fun hc => heq (char_toNat_inj hc)
          omega
        simp only [strLtB, Bool.or_eq_true]
        exact Or.inl (by simpa [charLtB] using hnat)

/-- The strict order used by `sortDedup`, as a relation on strings. -/
def strLtRel (a b : String) : Prop := strLtB a.data b.data = true

theorem mem_insertTag {z x : String} {l : List String}
    (h : z ∈ insertTag x l) : z = x ∨ z ∈ l := by
  induction l with
  | nil => simpa [insertTag] using h
  | cons y ys ih =>
    simp only [insertTag] at h
    by_cases hxy : x = y
    · rw [if_pos hxy] at h
      exact Or.inr h
    · rw [if_neg hxy] at h
      by_cases hlt : strLtB x.data y.data = true
      · rw [if_pos hlt] at h
        rcases List.mem_cons.mp h with h1 | h1
        · exact Or.inl h1
        · exact Or.inr h1
      · rw [if_neg hlt] at h
        rcases List.mem_cons.mp h with h1 | h1
        · exact Or.inr (by simp [h1])
        · rcases ih h1 with h2 | h2
          · exact Or.inl h2
          · exact Or.inr (List.mem_cons_of_mem _ h2)

theorem charLtB_trans {a b c : Char} (h1 : charLtB a b = true)
    (h2 : charLtB b c = true) : charLtB a c = true := by
  simp only [charLtB, decide_eq_true_eq] at h1 h2 ⊢
  omega

theorem strLtB_trans {x y z : List Char} (h1 : strLtB x y = true)
    (h2 : strLtB y z = true) : strLtB x z = true := by
  induction x generalizing y z with
  | nil =>
    cases y with
    | nil => simp [strLtB] at h1
    | cons b bs =>
      cases z with
      | nil => simp [strLtB] at h2
      | cons c cs => rfl
  | cons a as ih =>
    cases y with
    | nil => simp [strLtB] at h1
    | cons b bs =>
      cases z with
      | nil => simp [strLtB] at h2
      | cons c cs =>
        simp only [strLtB, Bool.or_eq_true, Bool.and_eq_true, beq_iff_eq]
          at h1 h2 ⊢
        rcases h1 with h1 | ⟨rfl, h1⟩
        · rcases h2 with h2 | ⟨rfl, h2⟩
          · exact Or.inl (charLtB_trans h1 h2)
          · exact Or.inl h1
        · rcases h2 with h2 | ⟨rfl, h2⟩
          · exact Or.inl h2
          · exact Or.inr ⟨rfl, ih h1 h2⟩

theorem strne_of_ne {x y : String} (h : x ≠ y) : x.data ≠ y.data := by
  intro hd
  apply h
  cases x
  cases y
  cases hd
  rfl

theorem strLtRel_trans {x y z : String} (h1 : strLtRel x y)
    (h2 : strLtRel y z) : strLtRel x z := strLtB_trans h1 h2

theorem sorted_insertTag (x : String) (l : List String)
    (h : l.Sorted strLtRel) : (insertTag x l).Sorted strLtRel := by
  induction l with
  | nil => simp [insertTag, List.sorted_singleton]
  | cons y ys ih =>
    rw [List.sorted_cons] at h
    obtain ⟨hy, hys⟩ := h
    by_cases hxy : x = y
    · rw [insertTag, if_pos hxy, List.sorted_cons]
      exact ⟨hy, hys⟩
    · rw [insertTag, if_neg hxy]
      by_cases hlt : strLtB x.data y.data = true
      · rw [if_pos hlt, List.sorted_cons]
        refine ⟨?_, by rw [List.sorted_cons]; exact ⟨hy, hys⟩⟩
        intro b hb
        rcases List.mem_cons.mp hb with rfl | hb
        · exact hlt
        · exact strLtRel_trans hlt (hy b hb)
      · have hyx : strLtRel y x :=
          strLtB_of_not_lt (fun hd => hxy (by cases x; cases y; cases hd; rfl))
            (by simpa using hlt)
        rw [if_neg hlt, List.sorted_cons]
        refine ⟨?_, ih hys⟩
        intro b hb
        rcases mem_insertTag hb with rfl | hb
        · exact hyx
        · exact hy b hb

theorem sorted_sortDedup (l : List String) : (sortDedup l).Sorted strLtRel := by
  induction l with
  | nil => exact List.sorted_nil
  | cons x xs ih => exact sorted_insertTag x _ ih

theorem nodup_of_sorted_strLtRel {l : List String} (h : l.Sorted strLtRel) :
    l.Nodup := by
  refine h.imp ?_
  intro a b hab
  intro hc
  subst hc
  have : strLtB a.data a.data = false := strLtB_irrefl a.data
  rw [hab] at this
  cases this


/-- Counterexample to C5: in `"```\ntags: secret\n```"` the token `secret`
occurs only inside a fenced code span (stripping code leaves the empty
string), yet it is present in the extracted tag set: the frontmatter
fallback regex scans the unstripped text. -/
theorem extract_tags_code_fence_leak :
    extractTags "```\ntags: secret\n```" = ["secret"] ∧
    stripCodeBlocks "```\ntags: secret\n```" = "" := by
  decide

/-- Amended C5: `_extract_tags` is order-canonical — its output is always
strictly sorted in code-point order and therefore duplicate-free, so
extracting twice (or from any permutation of the same tag occurrences)
yields the same sorted set; and a Markdown heading line `# Heading`
contributes no tag (the space after `#` fails the tag-character class).
The clause about code spans had to be dropped: a `tags:` line inside a
fenced block leaks through the frontmatter fallback, which scans the
unstripped text (see the counterexample). -/
theorem extract_tags_sorted_nodup_heading :
    (∀ t : String,
      ((extractTags t).Sorted strLtRel) ∧ (extractTags t).Nodup) ∧
    extractTags "# Heading" = [] := by
  refine ⟨fun t => ?_, by decide⟩
  have hs : (extractTags t).Sorted strLtRel :=
    sorted_sortDedup (tagFinds (stripCodeBlocks t) ++ fmTags t)
  exact ⟨hs, nodup_of_sorted_strLtRel hs⟩

/-! ## C7: create / read round-trip -/

theorem lookup_writeText_self (fs : FS) (p : AbsPath) (c : String) :
    (fs.writeText p c).lookup p = some (.file c true) := by
  unfold FS.writeText FS.lookup
  simp

theorem isFile_writeText (fs : FS) (p : AbsPath) (c : String) :
    (fs.writeText p c).isFile p = true := by
  unfold FS.isFile
  rw [lookup_writeText_self]

theorem readText_writeText (fs : FS) (p : AbsPath) (c : String) :
    (fs.writeText p c).readText p = Except.ok c := by
  unfold FS.readText
  rw [lookup_writeText_self]

theorem sizeBytes_writeText (fs : FS) (p : AbsPath) (c : String) :
    (fs.writeText p c).sizeBytes p = utf8Len c := by
  unfold FS.sizeBytes
  rw [lookup_writeText_self]

/-- C7: whenever `create(path, content)` succeeds, a subsequent
`read(path)` succeeds and returns exactly `content` as the `content`
field, with both the `size_bytes` reported by `read` and the
`size_bytes` reported by `create` equal to the UTF-8 byte length of
`content`. -/
theorem create_read_roundtrip (fs : FS) (vault : AbsPath)
    (pc : CreateNoteInput) (fs2 : FS) (rel : String) (n : Nat)
    (h : obsidian_fs_create fs vault pc = (fs2, Out.success (rel, n))) :
    ∃ r : ReadResult,
      obsidian_fs_read fs2 vault ⟨pc.path⟩ = Out.success r ∧
      r.content = pc.content ∧ r.size_bytes = utf8Len pc.content ∧
      n = utf8Len pc.content := by
  unfold obsidian_fs_create at h
  cases hres : safeResolve vault pc.path with
  | error e =>
    rw [hres] at h
    exact absurd (congrArg Prod.snd h) (by simp)
  | ok p0 =>
    rw [hres] at h
    dsimp only at h
    by_cases hex : (fs.existsPath (normalizeExt p0) && !pc.overwrite) = true
    · rw [if_pos hex] at h
      exact absurd (congrArg Prod.snd h) (by simp)
    · rw [if_neg hex] at h
      have hfs2 : fs2 =
          (fs.mkdirParents (normalizeExt p0).dropLast).writeText
            (normalizeExt p0) pc.content :=
        (congrArg Prod.fst h).symm
      have hn : n = utf8Len pc.content := by
        have h2 := congrArg Prod.snd h
        simp only [Out.success.injEq, Prod.mk.injEq] at h2
        exact h2.2.symm
      subst hfs2
      refine ⟨{ path := joinComponents ((normalizeExt p0).drop vault.length)
                name := pyStem ((normalizeExt p0).getLast?.getD "")
                folder :=
                  joinComponents (((normalizeExt p0).drop vault.length).dropLast)
                size_bytes := utf8Len pc.content
                content := pc.content
                tags := extractTags pc.content
                word_count := pyWordCount pc.content
                char_count := pc.content.data.length }, ?_, rfl, rfl, hn⟩
      unfold obsidian_fs_read
      rw [hres]
      simp only [isFile_writeText, Bool.not_true, Bool.false_eq_true,
        if_false, readText_writeText]
      unfold noteMetadata
      simp only [sizeBytes_writeText]

/-- Witness for C7: create `note` (normalized to `note.md`) with content
`hello` in an empty vault, then read it back. -/
theorem create_read_roundtrip_witness :
    ∃ r : ReadResult,
      obsidian_fs_read (obsidian_fs_create ⟨[]⟩ ["v"] ⟨"note", "hello", false⟩).1
        ["v"] ⟨"note"⟩ = Out.success r ∧
      r.content = "hello" ∧ r.size_bytes = utf8Len "hello" ∧
      5 = utf8Len "hello" :=
  create_read_roundtrip ⟨[]⟩ ["v"] ⟨"note", "hello", false⟩
    (obsidian_fs_create ⟨[]⟩ ["v"] ⟨"note", "hello", false⟩).1 "note.md" 5
    (by decide)

/-! ## C8: a missing scope folder yields empty success, not NotFound -/

def fsScope : FS := ⟨[(["v", "Note.md"], .file "hello #x" true)]⟩

/-- Counterexample to C8: with `Note.md` present and the scope folder
`missing` absent, `_list_notes` returns the empty list and `search`
succeeds with zero results; nothing fails with a NotFound error. -/
theorem list_notes_missing_folder_empty :
    listNotes fsScope ["v"] (some "missing") = Except.ok [] ∧
    obsidian_fs_search fsScope ["v"] ⟨"Note", "both", some "missing", 20⟩ =
      Out.success [] ∧
    obsidian_fs_get_tags fsScope ["v"] ⟨some "missing"⟩ =
      Out.success "No tags found in the vault." := by
  decide

/-! ## C8 (amended): a missing scope folder yields empty results -/

/-- Amended C8: when the `folder` argument resolves inside the vault but
the directory does not exist, `_list_notes` succeeds with the empty list
(a `glob` over a missing directory yields nothing), and `search` /
`get_tags` succeed with empty results instead of failing with NotFound;
only a vault-escaping folder fails (by raising path traversal). -/
theorem missing_folder_yields_empty_success (fs : FS) (vault : AbsPath)
    (f : String) (base : AbsPath)
    (hf : f ≠ "")
    (hres : safeResolve vault f = Except.ok base)
    (hnv : base ≠ vault) (hdir : fs.isDirB base = false)
    (q st : String) (lim : Nat) :
    listNotes fs vault (some f) = Except.ok [] ∧
    obsidian_fs_search fs vault ⟨q, st, some f, lim⟩ = Out.success [] ∧
    obsidian_fs_get_tags fs vault ⟨some f⟩ =
      Out.success "No tags found in the vault." := by
  have hl : listNotes fs vault (some f) = Except.ok [] := by
    unfold listNotes
    dsimp only
    rw [if_neg hf, hres]
    dsimp only
    unfold notesUnder FS.rglobMd
    rw [if_neg]
    · rfl
    · simp [hnv, hdir]
  refine ⟨hl, ?_, ?_⟩
  · unfold obsidian_fs_search
    rw [hl]
    rfl
  · unfold obsidian_fs_get_tags
    rw [hl]
    rfl

/-- Witness for the amended C8 on the counterexample vault. -/
theorem missing_folder_yields_empty_success_witness :
    listNotes fsScope ["v"] (some "missing") = Except.ok [] ∧
    obsidian_fs_search fsScope ["v"] ⟨"Note", "both", some "missing", 20⟩ =
      Out.success [] ∧
    obsidian_fs_get_tags fsScope ["v"] ⟨some "missing"⟩ =
      Out.success "No tags found in the vault." :=
  missing_folder_yields_empty_success fsScope ["v"] "missing" ["v", "missing"]
    (by decide) (by decide) (by decide) (by decide) "Note" "both" 20

/-! ## Line-splitting lemmas for the task-toggle claims -/

theorem splitNl_ne_nil (cs : List Char) : splitNl cs ≠ [] := by
  cases cs with
  | nil => simp [splitNl]
  | cons c rest =>
    by_cases hc : c = '\n'
    · simp [splitNl, hc]
    · simp only [splitNl, if_neg hc]
      cases splitNl rest <;> simp

theorem noNl_mem_splitNl {cs : List Char} {l : List Char}
    (h : l ∈ splitNl cs) : '\n' ∉ l := by
  induction cs generalizing l with
  | nil =>
    simp only [splitNl, List.mem_singleton] at h
    subst h; simp
  | cons c rest ih =>
    by_cases hc : c = '\n'
    · rw [splitNl, if_pos hc] at h
      rcases List.mem_cons.mp h with rfl | h2
      · simp
      · exact ih h2
    · rw [splitNl, if_neg hc] at h
      cases hs : splitNl rest with
      | nil => exact absurd hs (splitNl_ne_nil rest)
      | cons l0 ls0 =>
        rw [hs] at h
        rcases List.mem_cons.mp h with rfl | h2
        · intro hmem
          rcases List.mem_cons.mp hmem with h3 | h3
          · exact hc h3.symm
          · exact ih (hs ▸ List.mem_cons_self l0 ls0) h3
        · exact ih (hs ▸ List.mem_cons_of_mem l0 h2)

theorem splitNl_of_noNl {l : List Char} (h : '\n' ∉ l) : splitNl l = [l] := by
  induction l with
  | nil => rfl
  | cons c rest ih =>
    have hc : c ≠ '\n' := fun hc => h (hc ▸ List.mem_cons_self c rest)
    have hr : '\n' ∉ rest := fun hm => h (List.mem_cons_of_mem c hm)
    rw [splitNl, if_neg hc, ih hr]

theorem splitNl_append_nl {l : List Char} (t : List Char) (h : '\n' ∉ l) :
    splitNl (l ++ '\n' :: t) = l :: splitNl t := by
  induction l with
  | nil => simp [splitNl]
  | cons c rest ih =>
    have hc : c ≠ '\n' := fun hc => h (hc ▸ List.mem_cons_self c rest)
    have hr : '\n' ∉ rest := fun hm => h (List.mem_cons_of_mem c hm)
    rw [List.cons_append, splitNl, if_neg hc, ih hr]

theorem joinNl_cons_cons (l l2 : List Char) (ls : List (List Char)) :
    joinNl (l :: l2 :: ls) = l ++ '\n' :: joinNl (l2 :: ls) := rfl

theorem splitNl_joinNl {L : List (List Char)} (hL : ∀ l ∈ L, '\n' ∉ l)
    (hne : L ≠ []) : splitNl (joinNl L) = L := by
  induction L with
  | nil => exact absurd rfl hne
  | cons l ls ih =>
    cases ls with
    | nil =>
      exact splitNl_of_noNl (hL l (List.mem_cons_self l []))
    | cons l2 ls2 =>
      rw [joinNl_cons_cons, splitNl_append_nl _ (hL l (List.mem_cons_self l _))]
      rw [ih (fun x hx => hL x (List.mem_cons_of_mem l hx)) (by simp)]

theorem joinNl_splitNl (cs : List Char) : joinNl (splitNl cs) = cs := by
  induction cs with
  | nil => rfl
  | cons c rest ih =>
    by_cases hc : c = '\n'
    · subst hc
      rw [splitNl, if_pos rfl]
      cases hs : splitNl rest with
      | nil => exact absurd hs (splitNl_ne_nil rest)
      | cons l0 ls0 =>
        show joinNl ([] :: l0 :: ls0) = '\n' :: rest
        rw [joinNl_cons_cons, List.nil_append, ← hs, ih]
    · rw [splitNl, if_neg hc]
      cases hs : splitNl rest with
      | nil => exact absurd hs (splitNl_ne_nil rest)
      | cons l0 ls0 =>
        cases ls0 with
        | nil =>
          rw [hs] at ih
          exact congrArg (List.cons c) ih
        | cons l1 ls1 =>
          show joinNl ((c :: l0) :: l1 :: ls1) = c :: rest
          rw [hs] at ih
          rw [joinNl_cons_cons] at ih
          rw [joinNl_cons_cons, List.cons_append, ih]

theorem joinNl_append_emptyLast {M : List (List Char)} (hne : M ≠ []) :
    joinNl (M ++ [[]]) = joinNl M ++ ['\n'] := by
  induction M with
  | nil => exact absurd rfl hne
  | cons m ms ih =>
    cases ms with
    | nil => rfl
    | cons m2 ms2 =>
      have ih2 := ih (by simp)
      simp only [List.cons_append] at ih2 ⊢
      rw [joinNl_cons_cons, ih2, joinNl_cons_cons]
      simp

theorem getD_set_self {α : Type} (M : List α) (i : Nat) (a d : α)
    (h : i < M.length) : (M.set i a).getD i d = a := by
  induction M generalizing i with
  | nil => simp at h
  | cons m ms ih =>
    cases i with
    | zero => rfl
    | succ j =>
      simp only [List.set_cons_succ, List.getD_cons_succ]
      exact ih j (by simpa using h)

theorem getD_dropLast {α : Type} (M : List α) (i : Nat) (d : α)
    (h : i + 1 < M.length) : M.dropLast.getD i d = M.getD i d := by
  induction M generalizing i with
  | nil => simp at h
  | cons m ms ih =>
    cases ms with
    | nil => simp at h
    | cons m2 ms2 =>
      cases i with
      | zero => rfl
      | succ j =>
        simp only [List.dropLast_cons₂, List.getD_cons_succ]
        exact ih j (by simpa using h)

/-- Setting a line to a nonempty value and joining: the rewritten file
splits back into exactly the rewritten line list (minus a final empty
line, which can only sit strictly after the set index). -/
theorem pyLines_set_roundtrip (L : List (List Char)) (idx : Nat)
    (new : List Char) (hL : ∀ l ∈ L, '\n' ∉ l) (hnew : '\n' ∉ new)
    (hne : new ≠ []) (hidx : idx < L.length) :
    idx < (pyLines (joinNl (L.set idx new))).length ∧
    (pyLines (joinNl (L.set idx new))).getD idx [] = new ∧
    (∀ l ∈ pyLines (joinNl (L.set idx new)), '\n' ∉ l) := by
  set L' := L.set idx new with hL'
  have hlen : L'.length = L.length := by simp [hL']
  have hmem : ∀ l ∈ L', '\n' ∉ l := by
    intro l hl
    rcases List.mem_or_eq_of_mem_set hl with h2 | h2
    · exact hL l h2
    · exact h2 ▸ hnew
  have hL'ne : L' ≠ [] := by
    intro hc
    rw [hc] at hlen
    simp at hlen
    omega
  have hsplit : splitNl (joinNl L') = L' := splitNl_joinNl hmem hL'ne
  have hgetD : L'.getD idx [] = new := getD_set_self L idx new [] hidx
  unfold pyLines
  rw [hsplit]
  by_cases hlast : L'.getLast? = some []
  · rw [if_pos hlast]
    have hidxlt : idx + 1 < L'.length := by
      rcases Nat.lt_or_ge (idx + 1) L'.length with h2 | h2
      · exact h2
      · exfalso
        have hidx' : idx < L'.length := by omega
        have heq : idx = L'.length - 1 := by omega
        have := List.getLast?_eq_getElem? L'
        rw [hlast] at this
        have hg : L'[L'.length - 1]? = some [] := this.symm
        have hg2 : L'[idx]? = some [] := heq ▸ hg
        have hg3 : L'.getD idx [] = [] := by
          simp [List.getD, hg2]
        rw [hgetD] at hg3
        exact hne hg3
    refine ⟨?_, ?_, ?_⟩
    · rw [List.length_dropLast]
      omega
    · rw [getD_dropLast _ _ _ hidxlt]
      exact hgetD
    · intro l hl
      exact hmem l (List.dropLast_sublist L' |>.subset hl)
  · rw [if_neg hlast]
    refine ⟨by omega, hgetD, hmem⟩

/-! ## Task-line parsing lemmas -/

theorem takeWhile_append_all {α : Type} {p : α → Bool} (l t : List α)
    (h : ∀ c ∈ l, p c = true) : (l ++ t).takeWhile p = l ++ t.takeWhile p := by
  induction l with
  | nil => simp
  | cons a l2 ih =>
    have ha := h a (List.mem_cons_self a l2)
    rw [List.cons_append, List.takeWhile_cons, ha]
    simp only [if_true]
    rw [ih (fun c hc => h c (List.mem_cons_of_mem a hc)), List.cons_append]

theorem dropWhile_append_all {α : Type} {p : α → Bool} (l t : List α)
    (h : ∀ c ∈ l, p c = true) : (l ++ t).dropWhile p = t.dropWhile p := by
  induction l with
  | nil => simp
  | cons a l2 ih =>
    have ha := h a (List.mem_cons_self a l2)
    rw [List.cons_append, List.dropWhile_cons, ha]
    simp only [if_true]
    exact ih (fun c hc => h c (List.mem_cons_of_mem a hc))

theorem dropWhile_idem {α : Type} {p : α → Bool} (l : List α) :
    (l.dropWhile p).dropWhile p = l.dropWhile p := by
  induction l with
  | nil => rfl
  | cons a l2 ih =>
    by_cases ha : p a = true
    · rw [List.dropWhile_cons, if_pos ha]
      exact ih
    · rw [List.dropWhile_cons, if_neg ha, List.dropWhile_cons, if_neg ha]

/-- Inversion of a successful `TASK_PATTERN` match. -/
theorem parseTask_some {cs : List Char} {ind : List Char} {st : Char}
    {tx : List Char} (h : parseTask cs = some (ind, st, tx)) :
    ind = cs.takeWhile isPySpace ∧
    (∃ w rest, cs.dropWhile isPySpace = '-' :: w :: '[' :: st :: ']' :: rest ∧
      isPySpace w = true ∧ tx = rest.dropWhile isPySpace) := by
  unfold parseTask at h
  split at h
  · rename_i d w ob st2 cb rest heq
    by_cases hc : (d == '-' && ob == '[' && cb == ']' && isPySpace w) = true
    · rw [if_pos hc] at h
      by_cases h0 : (rest.takeWhile isPySpace).length ≠ 0
      · rw [if_pos h0] at h
        simp only [Option.some.injEq, Prod.mk.injEq] at h
        obtain ⟨hi, hst, htx⟩ := h
        subst hst
        simp only [Bool.and_eq_true, beq_iff_eq] at hc
        obtain ⟨⟨⟨hd, hob⟩, hcb⟩, hw⟩ := hc
        subst hd; subst hob; subst hcb
        exact ⟨hi.symm, w, rest, heq, hw, htx.symm⟩
      · rw [if_neg h0] at h; cases h
    · rw [if_neg hc] at h; cases h
  · cases h

theorem parseTask_ind_spaces {cs ind : List Char} {st : Char} {tx : List Char}
    (h : parseTask cs = some (ind, st, tx)) : ∀ a ∈ ind, isPySpace a = true := by
  obtain ⟨hi, -⟩ := parseTask_some h
  subst hi
  exact fun a ha => List.mem_takeWhile_imp ha

theorem parseTask_tx_dropWhile {cs ind : List Char} {st : Char} {tx : List Char}
    (h : parseTask cs = some (ind, st, tx)) : tx.dropWhile isPySpace = tx := by
  obtain ⟨-, w, rest, -, -, htx⟩ := parseTask_some h
  rw [htx, dropWhile_idem]

theorem parseTask_noNl {cs ind : List Char} {st : Char} {tx : List Char}
    (h : parseTask cs = some (ind, st, tx)) (hcs : '\n' ∉ cs) :
    '\n' ∉ ind ∧ '\n' ∉ tx := by
  obtain ⟨hi, w, rest, heq, hw, htx⟩ := parseTask_some h
  constructor
  · subst hi
    intro hm
    exact hcs ((List.takeWhile_sublist _).subset hm)
  · subst htx
    intro hm
    have hm2 : '\n' ∈ rest := (List.dropWhile_sublist _).subset hm
    have hm3 : '\n' ∈ cs.dropWhile isPySpace := by
      rw [heq]; simp [hm2]
    exact hcs ((List.dropWhile_sublist _).subset hm3)

/-- Re-parsing a freshly rendered task line recovers its parts exactly. -/
theorem parseTask_mkTaskLine (ind : List Char) (st : Char) (tx : List Char)
    (hind : ∀ a ∈ ind, isPySpace a = true)
    (htx : tx.dropWhile isPySpace = tx) :
    parseTask (mkTaskLine ind st tx) = some (ind, st, tx) := by
  unfold parseTask mkTaskLine
  have hdrop : (ind ++ '-' :: ' ' :: '[' :: st :: ']' :: ' ' :: tx).dropWhile
      isPySpace = '-' :: ' ' :: '[' :: st :: ']' :: ' ' :: tx := by
    rw [dropWhile_append_all _ _ hind]
    rfl
  have htake : (ind ++ '-' :: ' ' :: '[' :: st :: ']' :: ' ' :: tx).takeWhile
      isPySpace = ind := by
    rw [takeWhile_append_all _ _ hind,
      show List.takeWhile isPySpace ('-' :: ' ' :: '[' :: st :: ']' :: ' ' :: tx)
        = [] from rfl, List.append_nil]
  rw [hdrop]
  try dsimp only
  rw [if_pos (show (('-' : Char) == '-' && ('[' : Char) == '[' &&
    (']' : Char) == ']' && isPySpace ' ') = true from rfl)]
  rw [if_pos (show ((' ' :: tx).takeWhile isPySpace).length ≠ 0 by
    rw [List.takeWhile_cons, if_pos (show isPySpace ' ' = true from rfl)]
    simp)]
  rw [htake]
  rw [show (' ' :: tx).dropWhile isPySpace = tx.dropWhile isPySpace by
    rw [List.dropWhile_cons, if_pos (show isPySpace ' ' = true from rfl)]]
  rw [htx]

theorem mkTaskLine_ne_nil (ind : List Char) (st : Char) (tx : List Char) :
    mkTaskLine ind st tx ≠ [] := by
  simp [mkTaskLine]

theorem noNl_mkTaskLine {ind tx : List Char} {st : Char}
    (hind : '\n' ∉ ind) (htx : '\n' ∉ tx) (hst : st ≠ '\n') :
    '\n' ∉ mkTaskLine ind st tx := by
  intro hm
  rcases List.mem_append.mp hm with h | h
  · exact hind h
  · simp only [List.mem_cons] at h
    rcases h with h | h | h | h | h | h | h
    · exact absurd h (by decide)
    · exact absurd h (by decide)
    · exact absurd h (by decide)
    · exact hst h.symm
    · exact absurd h (by decide)
    · exact absurd h (by decide)
    · exact htx h

theorem noNl_mem_pyLines {cs : List Char} {l : List Char}
    (h : l ∈ pyLines cs) : '\n' ∉ l := by
  unfold pyLines at h
  split at h
  · exact noNl_mem_splitNl ((List.dropLast_sublist _).subset h)
  · exact noNl_mem_splitNl h

theorem getD_mem {α : Type} (l : List α) (i : Nat) (d : α) (h : i < l.length) :
    l.getD i d ∈ l := by
  rw [List.getD_eq_getElem l d h]
  exact List.getElem_mem h

/-! ## The happy path of `obsidian_fs_task_toggle` -/

/-- Characterization of a successful toggle: given that the path resolves,
the note exists and is readable, the line number is in range and the line
parses as a task, the handler rewrites that line (status flipped, parts
re-rendered with single-space separators) and rejoins with `\n`. -/
theorem toggle_run (fs : FS) (vault : AbsPath) (pi : FsTaskToggleInput)
    (p0 : AbsPath) (c : String) (ind : List Char) (st : Char) (tx : List Char)
    (hres : safeResolve vault pi.path = Except.ok p0)
    (hfile : fs.lookup (normalizeExt p0) = some (Entry.file c true))
    (hlen : pi.line ≤ (pyLines c.data).length)
    (hparse : parseTask ((pyLines c.data).getD (pi.line - 1) []) =
      some (ind, st, tx)) :
    obsidian_fs_task_toggle fs vault pi =
      (fs.writeText (normalizeExt p0)
        ⟨joinNl ((pyLines c.data).set (pi.line - 1)
          (mkTaskLine ind (if st != ' ' then ' ' else 'x') tx))⟩,
       Out.success ("Toggled task at " ++ relStr vault (normalizeExt p0) ++
        ":" ++ toString pi.line ++ " to [" ++
        (⟨[if st != ' ' then ' ' else 'x']⟩ : String) ++ "]")) := by
  unfold obsidian_fs_task_toggle
  rw [hres]
  try dsimp only
  have hisf : fs.isFile (normalizeExt p0) = true := by
    unfold FS.isFile
    rw [hfile]
  have hread : fs.readText (normalizeExt p0) = Except.ok c := by
    unfold FS.readText
    rw [hfile]
  rw [hisf]
  simp only [Bool.not_true, Bool.false_eq_true, if_false]
  rw [hread]
  dsimp only
  rw [if_neg (show ¬pi.line > (pyLines c.data).length by omega)]
  rw [hparse]

/-- Amended C6: on the standard status characters — the original status is
`' '` (incomplete) or `'x'` (complete) — `task_toggle` is an involution:
after toggling the same line twice, the line again parses as a task with
the original status character and the original task text (and indent)
exactly.  For any other non-space status character the double toggle
normalizes the status to the literal `x` (see the counterexample). -/
theorem task_toggle_involution_std_status
    (fs : FS) (vault : AbsPath) (pi : FsTaskToggleInput)
    (p0 : AbsPath) (c : String) (ind : List Char) (st : Char) (tx : List Char)
    (hline : 1 ≤ pi.line)
    (hres : safeResolve vault pi.path = Except.ok p0)
    (hfile : fs.lookup (normalizeExt p0) = some (Entry.file c true))
    (hlen : pi.line ≤ (pyLines c.data).length)
    (hparse : parseTask ((pyLines c.data).getD (pi.line - 1) []) =
      some (ind, st, tx))
    (hst : st = ' ' ∨ st = 'x') :
    ∃ (msg1 msg2 : String) (fs2 : FS) (c2 : String),
      (obsidian_fs_task_toggle fs vault pi).2 = Out.success msg1 ∧
      obsidian_fs_task_toggle (obsidian_fs_task_toggle fs vault pi).1 vault pi =
        (fs2, Out.success msg2) ∧
      fs2.lookup (normalizeExt p0) = some (Entry.file c2 true) ∧
      parseTask ((pyLines c2.data).getD (pi.line - 1) []) =
        some (ind, st, tx) := by
  have hidx : pi.line - 1 < (pyLines c.data).length := by omega
  have h1 := toggle_run fs vault pi p0 c ind st tx hres hfile hlen hparse
  have hnoNl_line : '\n' ∉ (pyLines c.data).getD (pi.line - 1) [] :=
    noNl_mem_pyLines (getD_mem _ _ _ hidx)
  have hnn := parseTask_noNl hparse hnoNl_line
  have hns_or : (if st != ' ' then ' ' else 'x') = ' ' ∨
      (if st != ' ' then ' ' else 'x') = 'x' := by
    split
    · exact Or.inl rfl
    · exact Or.inr rfl
  have hns_ne : (if st != ' ' then ' ' else 'x') ≠ '\n' := by
    rcases hns_or with h | h <;> rw [h] <;> decide
  have hnew_noNl : '\n' ∉ mkTaskLine ind (if st != ' ' then ' ' else 'x') tx :=
    noNl_mkTaskLine hnn.1 hnn.2 hns_ne
  obtain ⟨hlen1, hget1, hmem1⟩ := pyLines_set_roundtrip (pyLines c.data)
    (pi.line - 1) (mkTaskLine ind (if st != ' ' then ' ' else 'x') tx)
    (fun l hl => noNl_mem_pyLines hl) hnew_noNl (mkTaskLine_ne_nil _ _ _) hidx
  have hparse1 : parseTask
      ((pyLines (joinNl ((pyLines c.data).set (pi.line - 1)
        (mkTaskLine ind (if st != ' ' then ' ' else 'x') tx)))).getD
        (pi.line - 1) []) =
      some (ind, (if st != ' ' then ' ' else 'x'), tx) := by
    rw [hget1]
    exact parseTask_mkTaskLine ind _ tx (parseTask_ind_spaces hparse)
      (parseTask_tx_dropWhile hparse)
  have hfile1 := lookup_writeText_self fs (normalizeExt p0)
    ⟨joinNl ((pyLines c.data).set (pi.line - 1)
      (mkTaskLine ind (if st != ' ' then ' ' else 'x') tx))⟩
  have h2 := toggle_run
    (fs.writeText (normalizeExt p0)
      ⟨joinNl ((pyLines c.data).set (pi.line - 1)
        (mkTaskLine ind (if st != ' ' then ' ' else 'x') tx))⟩)
    vault pi p0
    ⟨joinNl ((pyLines c.data).set (pi.line - 1)
      (mkTaskLine ind (if st != ' ' then ' ' else 'x') tx))⟩
    ind (if st != ' ' then ' ' else 'x') tx hres hfile1
    (by
      show pi.line ≤ (pyLines (joinNl ((pyLines c.data).set (pi.line - 1)
        (mkTaskLine ind (if st != ' ' then ' ' else 'x') tx)))).length
      omega)
    hparse1
  have hns2 : (if (if st != ' ' then ' ' else 'x') != ' ' then ' ' else 'x')
      = st := by
    rcases hst with rfl | rfl <;> rfl
  rw [hns2] at h2
  have hnew2_noNl : '\n' ∉ mkTaskLine ind st tx :=
    noNl_mkTaskLine hnn.1 hnn.2
      (by rcases hst with rfl | rfl <;> decide)
  obtain ⟨hlen2, hget2, hmem2⟩ := pyLines_set_roundtrip
    (pyLines (joinNl ((pyLines c.data).set (pi.line - 1)
      (mkTaskLine ind (if st != ' ' then ' ' else 'x') tx))))
    (pi.line - 1) (mkTaskLine ind st tx)
    (fun l hl => noNl_mem_pyLines hl) hnew2_noNl (mkTaskLine_ne_nil _ _ _)
    hlen1
  refine ⟨"Toggled task at " ++ relStr vault (normalizeExt p0) ++ ":" ++
      toString pi.line ++ " to [" ++
      (⟨[if st != ' ' then ' ' else 'x']⟩ : String) ++ "]",
    "Toggled task at " ++ relStr vault (normalizeExt p0) ++ ":" ++
      toString pi.line ++ " to [" ++ (⟨[st]⟩ : String) ++ "]",
    (fs.writeText (normalizeExt p0)
        ⟨joinNl ((pyLines c.data).set (pi.line - 1)
          (mkTaskLine ind (if st != ' ' then ' ' else 'x') tx))⟩).writeText
      (normalizeExt p0)
      ⟨joinNl ((pyLines (joinNl ((pyLines c.data).set (pi.line - 1)
        (mkTaskLine ind (if st != ' ' then ' ' else 'x') tx)))).set
        (pi.line - 1) (mkTaskLine ind st tx))⟩,
    ⟨joinNl ((pyLines (joinNl ((pyLines c.data).set (pi.line - 1)
      (mkTaskLine ind (if st != ' ' then ' ' else 'x') tx)))).set
      (pi.line - 1) (mkTaskLine ind st tx))⟩,
    ?_, ?_, ?_, ?_⟩
  · exact congrArg Prod.snd h1
  · rw [congrArg Prod.fst h1]
    exact h2
  · exact lookup_writeText_self _ _ _
  · show parseTask ((pyLines (joinNl ((pyLines (joinNl
        ((pyLines c.data).set (pi.line - 1)
          (mkTaskLine ind (if st != ' ' then ' ' else 'x') tx)))).set
        (pi.line - 1) (mkTaskLine ind st tx)))).getD (pi.line - 1) []) =
      some (ind, st, tx)
    rw [hget2]
    exact parseTask_mkTaskLine ind st tx (parseTask_ind_spaces hparse)
      (parseTask_tx_dropWhile hparse)

/-- Witness for the amended C6: toggling `- [ ] a` twice in a one-note
vault restores status `' '` and text `a`. -/
theorem task_toggle_involution_std_status_witness :
    ∃ (msg1 msg2 : String) (fs2 : FS) (c2 : String),
      (obsidian_fs_task_toggle ⟨[(["v", "w.md"], .file "- [ ] a" true)]⟩
        ["v"] ⟨"w.md", 1⟩).2 = Out.success msg1 ∧
      obsidian_fs_task_toggle
        (obsidian_fs_task_toggle ⟨[(["v", "w.md"], .file "- [ ] a" true)]⟩
          ["v"] ⟨"w.md", 1⟩).1 ["v"] ⟨"w.md", 1⟩ = (fs2, Out.success msg2) ∧
      fs2.lookup (normalizeExt ["v", "w.md"]) = some (Entry.file c2 true) ∧
      parseTask ((pyLines c2.data).getD 0 []) = some ([], ' ', ['a']) :=
  task_toggle_involution_std_status
    ⟨[(["v", "w.md"], .file "- [ ] a" true)]⟩ ["v"] ⟨"w.md", 1⟩
    ["v", "w.md"] "- [ ] a" [] ' ' ['a']
    (by decide) (by decide) (by decide) (by decide) (by decide) (Or.inl rfl)

/-! ## C6: toggling twice normalizes custom status characters to `x` -/

def fsCustomStatus : FS := ⟨[(["v", "n.md"], .file "- [/] a" true)]⟩

/-- Counterexample to C6: a task with the custom status character `/` does
not get it back after two toggles — the second toggle completes it with
the literal `x`. -/
theorem task_toggle_custom_status_not_involutive :
    ((obsidian_fs_task_toggle
        (obsidian_fs_task_toggle fsCustomStatus ["v"] ⟨"n.md", 1⟩).1
        ["v"] ⟨"n.md", 1⟩).1).lookup ["v", "n.md"] =
      some (.file "- [x] a" true) ∧
    parseTask "- [/] a".data = some ([], '/', ['a']) ∧
    parseTask "- [x] a".data = some ([], 'x', ['a']) ∧
    ('/' : Char) ≠ 'x' := by
  decide

/-! ## Trailing-newline decomposition -/

theorem splitNl_last_empty {cs : List Char} (h : cs.getLast? = some '\n') :
    (splitNl cs).getLast? = some [] ∧ 2 ≤ (splitNl cs).length := by
  induction cs with
  | nil => simp at h
  | cons c rest ih =>
    cases rest with
    | nil =>
      simp only [List.getLast?_singleton, Option.some.injEq] at h
      subst h
      exact ⟨rfl, by rfl⟩
    | cons c2 rest2 =>
      have h2 : (c2 :: rest2).getLast? = some '\n' := by
        rw [← List.getLast?_cons_cons]
        exact h
      obtain ⟨ih1, ih2⟩ := ih h2
      by_cases hc : c = '\n'
      · rw [splitNl, if_pos hc]
        cases hs : splitNl (c2 :: rest2) with
        | nil => exact absurd hs (splitNl_ne_nil _)
        | cons l0 ls0 =>
          rw [hs] at ih1 ih2
          refine ⟨?_, ?_⟩
          · rw [List.getLast?_cons_cons]
            exact ih1
          · simp only [List.length_cons] at ih2 ⊢
            omega
      · rw [splitNl, if_neg hc]
        cases hs : splitNl (c2 :: rest2) with
        | nil => exact absurd hs (splitNl_ne_nil _)
        | cons l0 ls0 =>
          rw [hs] at ih1 ih2
          cases ls0 with
          | nil => simp at ih2
          | cons l1 ls1 =>
            refine ⟨?_, ?_⟩
            · rw [List.getLast?_cons_cons]
              rw [List.getLast?_cons_cons] at ih1
              exact ih1
            · simp only [List.length_cons] at ih2 ⊢
              omega

/-- A `\n`-terminated content is exactly its `splitlines()` joined with
`\n`, plus that one final newline. -/
theorem pyLines_trailing_nl {cs : List Char} (h : cs.getLast? = some '\n') :
    cs = joinNl (pyLines cs) ++ ['\n'] := by
  obtain ⟨hlast, hlen2⟩ := splitNl_last_empty h
  have hne : splitNl cs ≠ [] := splitNl_ne_nil cs
  have hgl : (splitNl cs).getLast hne = [] := by
    have hx := List.getLast?_eq_getLast (splitNl cs) hne
    rw [hx] at hlast
    exact Option.some.inj hlast
  have hdec : (splitNl cs).dropLast ++ [[]] = splitNl cs := by
    rw [← hgl]
    exact List.dropLast_append_getLast hne
  have hMne : (splitNl cs).dropLast ≠ [] := by
    intro hcontra
    have hl := List.length_dropLast (splitNl cs)
    rw [hcontra] at hl
    simp at hl
    omega
  calc cs = joinNl (splitNl cs) := (joinNl_splitNl cs).symm
    _ = joinNl ((splitNl cs).dropLast ++ [[]]) := by rw [hdec]
    _ = joinNl ((splitNl cs).dropLast) ++ ['\n'] := joinNl_append_emptyLast hMne
    _ = joinNl (pyLines cs) ++ ['\n'] := by
        unfold pyLines
        rw [if_pos hlast]

/-- Amended C9: for every file whose content ends with a newline, a
successful `task_toggle` rewrites the file as the `\n`-join of the
original `splitlines()` list with only the toggled line replaced — so the
single final trailing newline is dropped and every other line is
preserved verbatim — and the toggled line is the re-rendering
`indent + "- [" + status + "] " + text`: indent and text survive, but the
separator whitespace is normalized to single spaces, so more than the
bracketed status character may change (see the counterexample). -/
theorem task_toggle_rewrite_frame
    (fs : FS) (vault : AbsPath) (pi : FsTaskToggleInput)
    (p0 : AbsPath) (c : String) (ind : List Char) (st : Char) (tx : List Char)
    (hres : safeResolve vault pi.path = Except.ok p0)
    (hfile : fs.lookup (normalizeExt p0) = some (Entry.file c true))
    (hlen : pi.line ≤ (pyLines c.data).length)
    (hparse : parseTask ((pyLines c.data).getD (pi.line - 1) []) =
      some (ind, st, tx))
    (hnl : c.data.getLast? = some '\n') :
    ((obsidian_fs_task_toggle fs vault pi).1).lookup (normalizeExt p0) =
      some (Entry.file
        ⟨joinNl ((pyLines c.data).set (pi.line - 1)
          (mkTaskLine ind (if st != ' ' then ' ' else 'x') tx))⟩ true) ∧
    c.data = joinNl (pyLines c.data) ++ ['\n'] := by
  have h1 := toggle_run fs vault pi p0 c ind st tx hres hfile hlen hparse
  constructor
  · rw [congrArg Prod.fst h1]
    exact lookup_writeText_self _ _ _
  · exact pyLines_trailing_nl hnl

def fsFrame : FS := ⟨[(["v", "w2.md"], .file "x\n- [ ] a\ny\n" true)]⟩

/-- Witness for the amended C9 on a three-line note with a trailing
newline, toggling the middle line. -/
theorem task_toggle_rewrite_frame_witness :
    ((obsidian_fs_task_toggle fsFrame ["v"] ⟨"w2.md", 2⟩).1).lookup
        (normalizeExt ["v", "w2.md"]) =
      some (Entry.file
        ⟨joinNl ((pyLines ("x\n- [ ] a\ny\n" : String).data).set 1
          (mkTaskLine [] (if (' ' != ' ') then ' ' else 'x') ['a']))⟩ true) ∧
    ("x\n- [ ] a\ny\n" : String).data =
      joinNl (pyLines ("x\n- [ ] a\ny\n" : String).data) ++ ['\n'] :=
  task_toggle_rewrite_frame fsFrame ["v"] ⟨"w2.md", 2⟩ ["v", "w2.md"]
    "x\n- [ ] a\ny\n" [] ' ' ['a']
    (by decide) (by decide) (by decide) (by decide) (by decide)

/-! ## C9: the toggle rewrite normalizes separator whitespace -/

def fsSpacing : FS := ⟨[(["v", "n.md"], .file "- [ ]  a\n" true)]⟩

/-- Counterexample to C9: toggling `"- [ ]  a\n"` produces `"- [x] a"` —
beyond dropping the final newline and flipping the status character, the
double space after the brackets is collapsed to a single one, so the
toggled line does not keep its text with only the bracketed character
changed (that would have been `"- [x]  a"`). -/
theorem task_toggle_normalizes_spacing :
    ((obsidian_fs_task_toggle fsSpacing ["v"] ⟨"n.md", 1⟩).1).lookup ["v", "n.md"] =
      some (.file "- [x] a" true) ∧
    ("- [x] a" : String) ≠ "- [x]  a" := by
  decide

end ObsidianFS
